import Mathlib

/-!
# Verification of the rust-8 CHIP-8 emulator core

Shallow embedding of `src/lib.rs` (struct `Chip8`, `Chip8::new`, `Chip8::decode`,
`Chip8::execute`, `Chip8::fetch`).  Machine integers are modelled as `Nat`;
`wrapping_add`/`wrapping_sub`/`overflowing_add` are modelled with explicit `% 256`
(or `% 65536` for `u16`).  Rust array indexing panics when out of bounds and
debug-profile `+`/`-` panics on overflow/underflow; a panic is modelled by an
`Option`-valued step returning `none`.  Fallible decoding is an `Except` carrying
the raw opcode, as in the source.
-/

/-- Pointwise update of a register file, `v[k] = val`. -/
def updV (v : Fin 16 → Nat) (k : Fin 16) (val : Nat) : Fin 16 → Nat :=
  fun j => if j = k then val else v j

/-- Pointwise update of the call stack array. -/
def updStack (s : Fin 16 → Nat) (k : Fin 16) (val : Nat) : Fin 16 → Nat :=
  fun j => if j = k then val else s j

/-- Pointwise update of the 4096-byte memory array. -/
def updMem (m : Fin 4096 → Nat) (k : Fin 4096) (val : Nat) : Fin 4096 → Nat :=
  fun j => if j = k then val else m j

/-- Pointwise update of one framebuffer pixel (row `py`, column `px`). -/
def updPix (d : Fin 32 → Fin 64 → Bool) (py : Fin 32) (px : Fin 64) (b : Bool) :
    Fin 32 → Fin 64 → Bool :=
  fun y x => if y = py ∧ x = px then b else d y x

/-- `u8::wrapping_sub`: `(a - b) mod 256` on byte values. -/
def wsub8 (a b : Nat) : Nat := (a + 256 - b % 256) % 256

/-- The built-in 80-byte font table `FONT_SET` from the source. -/
def FONT_SET : List Nat :=
  [0xF0, 0x90, 0x90, 0x90, 0xF0,
   0x20, 0x60, 0x20, 0x20, 0x70,
   0xF0, 0x10, 0xF0, 0x80, 0xF0,
   0xF0, 0x10, 0xF0, 0x10, 0xF0,
   0x90, 0x90, 0xF0, 0x10, 0x10,
   0xF0, 0x80, 0xF0, 0x10, 0xF0,
   0xF0, 0x80, 0xF0, 0x90, 0xF0,
   0xF0, 0x10, 0x20, 0x40, 0x40,
   0xF0, 0x90, 0xF0, 0x90, 0xF0,
   0xF0, 0x90, 0xF0, 0x10, 0xF0,
   0xF0, 0x90, 0xF0, 0x90, 0x90,
   0xE0, 0x90, 0xE0, 0x90, 0xE0,
   0xF0, 0x80, 0x80, 0x80, 0xF0,
   0xE0, 0x90, 0x90, 0x90, 0xE0,
   0xF0, 0x80, 0xF0, 0x80, 0xF0,
   0xF0, 0x80, 0xF0, 0x80, 0x80]

/-- The machine state, mirroring `struct Chip8` field by field. -/
structure Chip8 where
  memory : Fin 4096 → Nat
  program_counter : Nat
  i : Nat
  stack : Fin 16 → Nat
  sp : Nat
  delay : Nat
  sound : Nat
  v : Fin 16 → Nat
  display : Fin 32 → Fin 64 → Bool
  update_display : Bool
  keyboard : Fin 16 → Bool

/-- `Chip8::new`: zeroed state with the font copied to `0x050..=0x09F` and
`update_display: true` as in the source initializer. -/
def Chip8.new : Chip8 where
  memory := fun a => if 0x50 ≤ a.val ∧ a.val ≤ 0x9F then FONT_SET.getD (a.val - 0x50) 0 else 0
  program_counter := 0
  i := 0
  stack := fun _ => 0
  sp := 0
  delay := 0
  sound := 0
  v := fun _ => 0
  display := fun _ _ => false
  update_display := true
  keyboard := fun _ => false

/-- Checked memory read, `self.memory[a]`: panics (`none`) when `a ≥ 4096`. -/
def memRead (s : Chip8) (a : Nat) : Option Nat :=
  if h : a < 4096 then some (s.memory ⟨a, h⟩) else none

/-- Checked memory write, `self.memory[a] = val`. -/
def memWrite (s : Chip8) (a : Nat) (val : Nat) : Option Chip8 :=
  if h : a < 4096 then some { s with memory := updMem s.memory ⟨a, h⟩ val } else none

/-- Checked register read, `self.v[k]` for a `usize` index. -/
def vRead (s : Chip8) (k : Nat) : Option Nat :=
  if h : k < 16 then some (s.v ⟨k, h⟩) else none

/-- Checked register write, `self.v[k] = val` for a `usize` index. -/
def vWrite (s : Chip8) (k : Nat) (val : Nat) : Option Chip8 :=
  if h : k < 16 then some { s with v := updV s.v ⟨k, h⟩ val } else none

/-- Total memory accessor used on the specification side (`0` out of range). -/
def mem8 (s : Chip8) (a : Nat) : Nat :=
  if h : a < 4096 then s.memory ⟨a, h⟩ else 0

/-- Total framebuffer accessor used on the specification side
(`false` out of range); row `ry`, column `cx`. -/
def getPix (s : Chip8) (ry cx : Nat) : Bool :=
  if h : ry < 32 ∧ cx < 64 then s.display ⟨ry, h.1⟩ ⟨cx, h.2⟩ else false

/-- The decoded instruction set, mirroring `enum Instruction`. -/
inductive Instruction where
  | Clear
  | Jump (nnn : Nat)
  | JumpOffset (nnn : Nat)
  | Call (nnn : Nat)
  | Return
  | SEQ (x : Fin 16) (nn : Nat)
  | SNEQ (x : Fin 16) (nn : Nat)
  | SEQR (x y : Fin 16)
  | SNEQR (x y : Fin 16)
  | Set (x : Fin 16) (nn : Nat)
  | SetRegister (x y : Fin 16)
  | OR (x y : Fin 16)
  | AND (x y : Fin 16)
  | XOR (x y : Fin 16)
  | Add (x : Fin 16) (nn : Nat)
  | AddRegister (x y : Fin 16)
  | Subtract (x y : Fin 16)
  | SubtractInv (x y : Fin 16)
  | Random (x : Fin 16) (nn : Nat)
  | LShift (x y : Fin 16)
  | RShift (x y : Fin 16)
  | SkipIfKey (x : Fin 16)
  | SkipIfNotKey (x : Fin 16)
  | GetDelayTimer (x : Fin 16)
  | SetDelayTimer (x : Fin 16)
  | SetSoundTimer (x : Fin 16)
  | AddToIndex (x : Fin 16)
  | GetKey (x : Fin 16)
  | GetFontCharacter (x : Fin 16)
  | BinaryToDecimal (x : Fin 16)
  | StoreMemory (x : Fin 16)
  | LoadMemory (x : Fin 16)
  | SetIndex (nnn : Nat)
  | Display (x y : Fin 16) (n : Nat)
deriving DecidableEq, Repr

theorem nibbleX_lt (opcode : Nat) : (opcode &&& 0x0F00) >>> 8 < 16 := by
  have h : opcode &&& 0x0F00 ≤ 0x0F00 := Nat.and_le_right
  rw [Nat.shiftRight_eq_div_pow]
  calc (opcode &&& 0x0F00) / 2 ^ 8 ≤ 0x0F00 / 2 ^ 8 := Nat.div_le_div_right h
    _ < 16 := by norm_num

theorem nibbleY_lt (opcode : Nat) : (opcode &&& 0x00F0) >>> 4 < 16 := by
  have h : opcode &&& 0x00F0 ≤ 0x00F0 := Nat.and_le_right
  rw [Nat.shiftRight_eq_div_pow]
  calc (opcode &&& 0x00F0) / 2 ^ 4 ≤ 0x00F0 / 2 ^ 4 := Nat.div_le_div_right h
    _ < 16 := by norm_num

/-- `Chip8::decode`: a pure mapping from a raw opcode to an `Instruction`,
failing with the raw opcode on unrecognized patterns.  The `match` arms of the
source are rendered as sequential equality tests. -/
def decode (opcode : Nat) : Except Nat Instruction :=
  let first := (opcode &&& 0xF000) >>> 12
  let x : Fin 16 := ⟨(opcode &&& 0x0F00) >>> 8, nibbleX_lt opcode⟩
  let y : Fin 16 := ⟨(opcode &&& 0x00F0) >>> 4, nibbleY_lt opcode⟩
  let n := opcode &&& 0x000F
  let nn := opcode &&& 0x00FF
  let nnn := opcode &&& 0x0FFF
  if first = 0x0 then
    if nn = 0xE0 then .ok .Clear
    else if nn = 0xEE then .ok .Return
    else .error opcode
  else if first = 0x1 then .ok (.Jump nnn)
  else if first = 0x2 then .ok (.Call nnn)
  else if first = 0x3 then .ok (.SEQ x nn)
  else if first = 0x4 then .ok (.SNEQ x nn)
  else if first = 0x5 then .ok (.SEQR x y)
  else if first = 0x6 then .ok (.Set x nn)
  else if first = 0x7 then .ok (.Add x nn)
  else if first = 0x8 then
    if n = 0 then .ok (.SetRegister x y)
    else if n = 1 then .ok (.OR x y)
    else if n = 2 then .ok (.AND x y)
    else if n = 3 then .ok (.XOR x y)
    else if n = 4 then .ok (.AddRegister x y)
    else if n = 5 then .ok (.Subtract x y)
    else if n = 6 then .ok (.RShift x y)
    else if n = 7 then .ok (.SubtractInv x y)
    else if n = 0xE then .ok (.LShift x y)
    else .error opcode
  else if first = 0x9 then .ok (.SNEQR x y)
  else if first = 0xA then .ok (.SetIndex nnn)
  else if first = 0xB then .ok (.JumpOffset nnn)
  else if first = 0xC then .ok (.Random x nn)
  else if first = 0xD then .ok (.Display x y n)
  else if first = 0xF then
    if nn = 0x07 then .ok (.GetDelayTimer x)
    else if nn = 0x15 then .ok (.SetDelayTimer x)
    else if nn = 0x18 then .ok (.SetSoundTimer x)
    else if nn = 0x29 then .ok (.GetFontCharacter x)
    else if nn = 0x33 then .ok (.BinaryToDecimal x)
    else if nn = 0x1E then .ok (.AddToIndex x)
    else if nn = 0x55 then .ok (.StoreMemory x)
    else if nn = 0x65 then .ok (.LoadMemory x)
    else .error opcode
  else .error opcode

/-- One sprite pixel of the `Dxyn` inner loop body: sprite bit `col` of `byte`
drawn at screen position `(x0 + col, y0 + row)`, clipped at the 64×32 border,
with XOR toggling and collision reporting into `VF`. -/
def drawCol (x0 y0 byte row col : Nat) (s : Chip8) : Chip8 :=
  let sx := x0 + col
  let sy := y0 + row
  if hx : sx < 64 then
    if hy : sy < 32 then
      if (byte >>> (7 - col)) % 2 = 1 then
        let px : Fin 64 := ⟨sx, hx⟩
        let py : Fin 32 := ⟨sy, hy⟩
        { s with
          v := if s.display py px = true then updV s.v 15 1 else s.v,
          display := updPix s.display py px (!s.display py px) }
      else s
    else s
  else s

/-- The `for col in 0..8` loop of `Dxyn`, folded over a column list. -/
def drawCols (x0 y0 byte row : Nat) (s : Chip8) : List Nat → Chip8
  | [] => s
  | c :: rest => drawCols x0 y0 byte row (drawCol x0 y0 byte row c s) rest

/-- The `for row in 0..n` loop of `Dxyn`: reads the sprite byte at `I + row`
(panicking when out of the 4096-byte memory) and draws its 8 columns. -/
def drawRows (x0 y0 : Nat) (s : Chip8) : List Nat → Option Chip8
  | [] => some s
  | r :: rest => do
      let byte ← memRead s (s.i + r)
      drawRows x0 y0 (drawCols x0 y0 byte r s (List.range 8)) rest

/-- The `for i in 0..=x` loop of `Fx55`: writes `v[k], v[k+1], ...` (`cnt` many)
to memory at `I + k, I + k + 1, ...`. -/
def storeRegs (s : Chip8) (k : Nat) : Nat → Option Chip8
  | 0 => some s
  | cnt + 1 => do
      let val ← vRead s k
      let s1 ← memWrite s (s.i + k) val
      storeRegs s1 (k + 1) cnt

/-- The `for i in 0..=x` loop of `Fx65`: loads memory at `I + k, ...` into
`v[k], ...`. -/
def loadRegs (s : Chip8) (k : Nat) : Nat → Option Chip8
  | 0 => some s
  | cnt + 1 => do
      let val ← memRead s (s.i + k)
      let s1 ← vWrite s k val
      loadRegs s1 (k + 1) cnt

/-- `pc += 2` on a `u16` program counter (debug-profile overflow panic). -/
def pcSkip (s : Chip8) : Option Chip8 :=
  if s.program_counter + 2 < 65536 then
    some { s with program_counter := s.program_counter + 2 }
  else none

/-- `Chip8::execute`.  `rnd` supplies the random byte drawn by `Cxnn`.
`none` models a Rust panic (array index out of bounds, or debug-profile
arithmetic overflow). -/
def execute (rnd : Nat) (st : Chip8) (ins : Instruction) : Option Chip8 :=
  match ins with
  | .Clear => some { st with display := fun _ _ => false, update_display := true }
  | .Jump nnn => some { st with program_counter := nnn }
  | .JumpOffset nnn =>
      if nnn + st.v 0 < 65536 then some { st with program_counter := nnn + st.v 0 } else none
  | .Add x nn => some { st with v := updV st.v x ((st.v x + nn) % 256) }
  | .Subtract x y =>
      let v1 := updV st.v 15 (if st.v x ≥ st.v y then 1 else 0)
      some { st with v := updV v1 x (wsub8 (v1 x) (v1 y)) }
  | .SubtractInv x y =>
      let v1 := updV st.v 15 (if st.v y ≥ st.v x then 1 else 0)
      some { st with v := updV v1 x (wsub8 (v1 y) (v1 x)) }
  | .Set x nn => some { st with v := updV st.v x nn }
  | .SetIndex nnn => some { st with i := nnn }
  | .Display x y n =>
      let x0 := st.v x % 64
      let y0 := st.v y % 32
      let s0 : Chip8 := { st with v := updV st.v 15 0 }
      match drawRows x0 y0 s0 (List.range n) with
      | none => none
      | some s2 => some { s2 with update_display := true }
  | .AND x y => some { st with v := updV st.v x (st.v x &&& st.v y) }
  | .OR x y => some { st with v := updV st.v x (st.v x ||| st.v y) }
  | .XOR x y => some { st with v := updV st.v x (st.v x ^^^ st.v y) }
  | .Random x nn => some { st with v := updV st.v x ((rnd % 256) &&& nn) }
  | .SEQ x nn => if st.v x = nn then pcSkip st else some st
  | .SNEQ x nn => if st.v x ≠ nn then pcSkip st else some st
  | .SEQR x y => if st.v x = st.v y then pcSkip st else some st
  | .SNEQR x y => if st.v x ≠ st.v y then pcSkip st else some st
  | .SetRegister x y => some { st with v := updV st.v x (st.v y) }
  | .AddRegister x y =>
      let sum := st.v x + st.v y
      let v1 := updV st.v 15 (if 256 ≤ sum then 1 else 0)
      some { st with v := updV v1 x (sum % 256) }
  | .GetDelayTimer x => some { st with v := updV st.v x st.delay }
  | .SetDelayTimer x => some { st with delay := st.v x }
  | .SetSoundTimer x => some { st with sound := st.v x }
  | .Call nnn =>
      if h : st.sp < 16 then
        some { st with stack := updStack st.stack ⟨st.sp, h⟩ st.program_counter,
                       sp := st.sp + 1,
                       program_counter := nnn }
      else none
  | .Return =>
      match st.sp with
      | 0 => none
      | k + 1 =>
          if h : k < 16 then some { st with sp := k, program_counter := st.stack ⟨k, h⟩ }
          else none
  | .AddToIndex x => some { st with i := (st.i + st.v x) % 65536 }
  | .StoreMemory x => storeRegs st 0 (x.val + 1)
  | .LoadMemory x => loadRegs st 0 (x.val + 1)
  | .GetFontCharacter x => some { st with i := 0x50 + st.v x * 5 }
  | .BinaryToDecimal x => do
      let tc := st.v x
      let s1 ← memWrite st st.i (tc / 100)
      let s2 ← memWrite s1 (s1.i + 1) ((tc / 10) % 10)
      let s3 ← memWrite s2 (s2.i + 2) (tc % 10)
      some s3
  | .LShift x y =>
      let bit := (st.v y &&& 0x80) >>> 7
      let v1 := updV st.v x ((st.v y <<< 1) % 256)
      some { st with v := updV v1 15 bit }
  | .RShift x y =>
      let bit := st.v y &&& 1
      let v1 := updV st.v x (st.v y >>> 1)
      some { st with v := updV v1 15 bit }
  | .SkipIfKey _ => some st
  | .SkipIfNotKey _ => some st
  | .GetKey _ => some st

/-- `Chip8::fetch`: big-endian combine of the two bytes at `pc`, `pc+1`
(index panic when outside memory), then `pc` advances by 2 wrapping at 16 bits. -/
def fetch (st : Chip8) : Option (Nat × Chip8) := do
  let hi ← memRead st st.program_counter
  let lo ← memRead st ((st.program_counter + 1) % 65536)
  some ((hi <<< 8) ||| lo, { st with program_counter := (st.program_counter + 2) % 65536 })

/-- Outcome of one fetch-decode-execute iteration of `Chip8::run`:
a decode failure is a recoverable `Result` error carrying the raw opcode,
while a panic aborts the program. -/
inductive StepError where
  | unknownOpcode (raw : Nat)
  | panic
deriving DecidableEq, Repr

/-- One iteration of the `Chip8::run` loop: fetch, decode, execute. -/
def step (rnd : Nat) (st : Chip8) : Except StepError Chip8 :=
  match fetch st with
  | none => .error .panic
  | some (opcode, st1) =>
    match decode opcode with
    | .error raw => .error (.unknownOpcode raw)
    | .ok ins =>
      match execute rnd st1 ins with
      | none => .error .panic
      | some st2 => .ok st2

/-! ## Basic update lemmas -/

theorem updV_self (v : Fin 16 → Nat) (k : Fin 16) (val : Nat) : updV v k val k = val := by
  simp [updV]

theorem updV_ne (v : Fin 16 → Nat) (k : Fin 16) (val : Nat) (j : Fin 16) (h : j ≠ k) :
    updV v k val j = v j := by
  simp [updV, h]

theorem mem8_write (s : Chip8) (b : Fin 4096) (val : Nat) (a : Nat) :
    mem8 { s with memory := updMem s.memory b val } a = if a = b.val then val else mem8 s a := by
  by_cases h : a < 4096
  · by_cases hb : a = b.val
    · have hfin : (⟨a, h⟩ : Fin 4096) = b := Fin.ext hb
      simp [mem8, updMem, h, hb, hfin]
    · have hfin : (⟨a, h⟩ : Fin 4096) ≠ b := fun hc => hb (congrArg Fin.val hc)
      simp [mem8, updMem, h, hb, hfin]
  · have hb : a ≠ b.val := by have := b.isLt; omega
    simp [mem8, h, hb]

theorem mem8_congr (s1 s : Chip8) (h : s1.memory = s.memory) (a : Nat) :
    mem8 s1 a = mem8 s a := by
  unfold mem8
  rw [h]

/-! ## C1: the 8xy4 AddRegister instruction -/

/-- C1 (amended): `8xy4` always succeeds; for `x ≠ 0xF` it stores the 8-bit
wrapped sum of the pre-operation `Vx`, `Vy` into `Vx` and sets `VF = 1` iff the
unsigned sum exceeds 255 (else `VF = 0`); for `x = 0xF` the result assignment
follows the flag assignment, so the final `VF` is the wrapped sum, not the carry
flag.  All other registers and every other machine-state field are unchanged. -/
theorem addRegister_spec (rnd : Nat) (st : Chip8) (x y : Fin 16) :
    ∃ st1, execute rnd st (.AddRegister x y) = some st1 ∧
      st1.memory = st.memory ∧
      st1.program_counter = st.program_counter ∧
      st1.i = st.i ∧ st1.stack = st.stack ∧ st1.sp = st.sp ∧
      st1.delay = st.delay ∧ st1.sound = st.sound ∧
      st1.display = st.display ∧ st1.update_display = st.update_display ∧
      st1.keyboard = st.keyboard ∧
      (∀ j : Fin 16, j ≠ x → j ≠ 15 → st1.v j = st.v j) ∧
      (x ≠ 15 →
        st1.v x = (st.v x + st.v y) % 256 ∧
        (st1.v 15 = 1 ↔ 255 < st.v x + st.v y) ∧
        (st1.v 15 = 0 ↔ st.v x + st.v y ≤ 255)) ∧
      (x = 15 → st1.v 15 = (st.v 15 + st.v y) % 256) := by
  refine ⟨_, rfl, rfl, rfl, rfl, rfl, rfl, rfl, rfl, rfl, rfl, rfl, ?_, ?_, ?_⟩
  · intro j hjx hj15
    dsimp only
    simp only [updV]
    rw [if_neg hjx, if_neg hj15]
  · intro hx
    dsimp only
    refine ⟨by rw [updV_self], ?_, ?_⟩
    · rw [updV_ne _ _ _ _ (Ne.symm hx), updV_self]
      by_cases h : 256 ≤ st.v x + st.v y
      · rw [if_pos h]
        constructor <;> intro <;> omega
      · rw [if_neg h]
        constructor <;> intro <;> omega
    · rw [updV_ne _ _ _ _ (Ne.symm hx), updV_self]
      by_cases h : 256 ≤ st.v x + st.v y
      · rw [if_pos h]
        constructor <;> intro <;> omega
      · rw [if_neg h]
        constructor <;> intro <;> omega
  · intro hx
    subst hx
    dsimp only
    rw [updV_self]

/-- C1 counterexample: with `VF = 200`, `V0 = 100` the unsigned sum is 300 > 255,
so the claim demands `VF = 1` after `8F04`, but the code leaves the wrapped sum
44 in `VF` (the flag write is overwritten). -/
def c1CexSt : Chip8 :=
  { Chip8.new with v := fun j => if j = 15 then 200 else if j = 0 then 100 else 0 }

theorem addRegister_claim_cex :
    255 < c1CexSt.v 15 + c1CexSt.v 0 ∧
    (execute 0 c1CexSt (.AddRegister 15 0)).map (fun s => s.v 15) ≠ some 1 := by
  decide

/-! ## C2: the 8xy5 Subtract instruction -/

/-- C2 (amended): `8xy5` always succeeds; the flag write `VF = (Vx ≥ Vy)` happens
first and the subtraction reads the registers after it, so for `x ≠ 0xF, y ≠ 0xF`
the claim holds (`Vx` gets the wrapped pre-operation difference, `VF` the
pre-operation comparison); when `y = 0xF` the subtrahend is the freshly written
flag, and when `x = 0xF` the minuend is the flag.  All other registers and every
other field are unchanged. -/
theorem subtract_spec (rnd : Nat) (st : Chip8) (x y : Fin 16) :
    ∃ st1, execute rnd st (.Subtract x y) = some st1 ∧
      st1.memory = st.memory ∧
      st1.program_counter = st.program_counter ∧
      st1.i = st.i ∧ st1.stack = st.stack ∧ st1.sp = st.sp ∧
      st1.delay = st.delay ∧ st1.sound = st.sound ∧
      st1.display = st.display ∧ st1.update_display = st.update_display ∧
      st1.keyboard = st.keyboard ∧
      (∀ j : Fin 16, j ≠ x → j ≠ 15 → st1.v j = st.v j) ∧
      (x ≠ 15 → st1.v 15 = (if st.v x ≥ st.v y then 1 else 0)) ∧
      (x ≠ 15 → y ≠ 15 → st1.v x = wsub8 (st.v x) (st.v y)) ∧
      (x ≠ 15 → y = 15 →
        st1.v x = wsub8 (st.v x) (if st.v x ≥ st.v 15 then 1 else 0)) ∧
      (x = 15 →
        st1.v 15 = wsub8 (if st.v 15 ≥ st.v y then 1 else 0)
          (if y = 15 then (if st.v 15 ≥ st.v y then 1 else 0) else st.v y)) := by
  refine ⟨_, rfl, rfl, rfl, rfl, rfl, rfl, rfl, rfl, rfl, rfl, rfl, ?_, ?_, ?_, ?_, ?_⟩
  · intro j hjx hj15
    dsimp only
    simp only [updV]
    rw [if_neg hjx, if_neg hj15]
  · intro hx
    dsimp only
    rw [updV_ne _ _ _ _ (Ne.symm hx), updV_self]
  · intro hx hy
    dsimp only
    rw [updV_self, updV_ne _ _ _ _ hx, updV_ne _ _ _ _ hy]
  · intro hx hy
    subst hy
    dsimp only
    rw [updV_self, updV_ne _ _ _ _ hx, updV_self]
  · intro hx
    subst hx
    dsimp only
    rw [updV_self, updV_self]
    by_cases hy : y = (15 : Fin 16)
    · subst hy
      rw [if_pos rfl, updV_self]
    · rw [if_neg hy, updV_ne _ _ _ _ hy]

/-- C2 counterexample: with `V0 = 10`, `VF = 3` (so `x = 0`, `y = 0xF`), the
flag write sets `VF = 1` before the subtraction reads it, and `V0` becomes
`10 - 1 = 9`, not the wrapped pre-operation difference `10 - 3 = 7` the claim
demands. -/
def c2CexSt : Chip8 :=
  { Chip8.new with v := fun j => if j = 0 then 10 else if j = 15 then 3 else 0 }

theorem subtract_claim_cex :
    (execute 0 c2CexSt (.Subtract 0 15)).map (fun s => s.v 0) ≠ some 7 := by
  decide

/-! ## C3: 2nnn Call with a full call stack -/

/-- Memory image holding the single opcode `0x2300` (Call 0x300) at `0x200`. -/
def c3Mem : Fin 4096 → Nat := fun a => if a.val = 0x200 then 0x23 else 0

/-- A state about to execute `2nnn` whose call stack already holds 16 entries. -/
def c3FullSt : Chip8 := { Chip8.new with sp := 16, program_counter := 0x200, memory := c3Mem }

/-- The same state with an empty call stack. -/
def c3OkSt : Chip8 := { c3FullSt with sp := 0 }

/-- C3 (code behavior): with 16 entries on the stack, executing `2nnn` indexes
`stack[16]` and panics (an abort, not a reported stack-overflow error through
the `Result` channel the claim describes); with fewer entries it pushes the
post-increment, pre-jump program counter `0x202` and jumps to `nnn = 0x300`. -/
theorem call_overflow_behavior :
    step 0 c3FullSt = Except.error StepError.panic ∧
    (step 0 c3OkSt).toOption.map (fun s => (s.program_counter, s.sp, s.stack 0)) =
      some (0x300, 1, 0x202) := by
  exact ⟨rfl, by decide⟩

/-! ## C4: 00EE Return with an empty call stack -/

/-- Memory image holding the single opcode `0x00EE` (Return) at `0x200`. -/
def c4Mem : Fin 4096 → Nat :=
  fun a => if a.val = 0x200 then 0x00 else if a.val = 0x201 then 0xEE else 0

/-- A state about to execute `00EE` with an empty call stack. -/
def c4EmptySt : Chip8 := { Chip8.new with program_counter := 0x200, memory := c4Mem }

/-- The same state with one pushed return address `0x345`. -/
def c4OneSt : Chip8 :=
  { c4EmptySt with sp := 1, stack := fun j => if j = 0 then 0x345 else 0 }

/-- C4 (code behavior): with an empty stack, executing `00EE` underflows the
`usize` stack pointer and panics (an abort, not a reported stack-underflow
error); with a non-empty stack it pops the top return address into `pc`. -/
theorem return_underflow_behavior :
    step 0 c4EmptySt = Except.error StepError.panic ∧
    (step 0 c4OneSt).toOption.map (fun s => (s.program_counter, s.sp)) = some (0x345, 0) := by
  exact ⟨rfl, by decide⟩

/-! ## C5: the Fx0A get-key instruction is not decoded -/

/-- C5 (code behavior): for every register index `x`, the opcode `Fx0A` is not
recognized by `decode` at all — it is rejected as an unknown `0xF` instruction
carrying the raw opcode — so no key-wait behavior exists in the engine. -/
theorem getKey_not_decoded (x : Fin 16) :
    decode (0xF00A ||| (x.val <<< 8)) = Except.error (0xF00A ||| (x.val <<< 8)) := by
  fin_cases x <;> rfl

/-! ## C8: the initial machine state of Chip8::new -/

/-- C8 counterexample: the claim demands that the dirty flag is zeroed (false)
after construction, but `Chip8::new` initializes `update_display: true`. -/
theorem new_dirty_flag_cex : ¬ (Chip8.new.update_display = false) := by
  decide

/-- C8 (amended): after `Chip8::new`, memory holds exactly the 80-byte font at
`0x050..=0x09F` (in particular `0xF0,0x90,0x90,0x90,0xF0` at `0x050`) and zero
elsewhere; all 16 `V` registers, the index register, the program counter, the
stack and stack pointer, both timers, the keypad and the framebuffer are zeroed;
the dirty flag however starts out set (`true`), not cleared. -/
theorem new_initial_state :
    (∀ a : Fin 4096, a.val < 0x50 ∨ 0x9F < a.val → Chip8.new.memory a = 0) ∧
    (∀ k : Fin 80, Chip8.new.memory ⟨0x50 + k.val, by have := k.isLt; omega⟩ =
      FONT_SET.getD k.val 0) ∧
    Chip8.new.memory ⟨0x50, by omega⟩ = 0xF0 ∧
    Chip8.new.memory ⟨0x51, by omega⟩ = 0x90 ∧
    Chip8.new.memory ⟨0x52, by omega⟩ = 0x90 ∧
    Chip8.new.memory ⟨0x53, by omega⟩ = 0x90 ∧
    Chip8.new.memory ⟨0x54, by omega⟩ = 0xF0 ∧
    Chip8.new.program_counter = 0 ∧ Chip8.new.i = 0 ∧ Chip8.new.sp = 0 ∧
    (∀ j : Fin 16, Chip8.new.v j = 0) ∧
    (∀ j : Fin 16, Chip8.new.stack j = 0) ∧
    Chip8.new.delay = 0 ∧ Chip8.new.sound = 0 ∧
    (∀ j : Fin 16, Chip8.new.keyboard j = false) ∧
    (∀ (p : Fin 32) (q : Fin 64), Chip8.new.display p q = false) ∧
    Chip8.new.update_display = true := by
  refine ⟨?_, ?_, by decide, by decide, by decide, by decide, by decide,
    rfl, rfl, rfl, fun j => rfl, fun j => rfl, rfl, rfl, fun j => rfl,
    fun p q => rfl, rfl⟩
  · intro a ha
    have hcond : ¬ (0x50 ≤ a.val ∧ a.val ≤ 0x9F) := by omega
    simp only [Chip8.new]
    rw [if_neg hcond]
  · intro k
    have hk := k.isLt
    simp only [Chip8.new]
    rw [if_pos ⟨by omega, by omega⟩]
    congr 1
    omega

/-! ## C7: totality of decode over the 16-bit opcode space -/

/-- The patterns `Chip8::decode` actually accepts, stated independently from
`decode` by nibble conditions: `0xnn` with `nn ∈ {E0, EE}` (any middle nibbles),
classes `1`-`7`, `8xyn` with `n ∈ {0..7, E}`, class `9` (any final nibble, like
class `5`), `A`-`D`, and `Fxnn` with
`nn ∈ {07, 15, 18, 29, 33, 1E, 55, 65}`.  Class `E` (`Ex9E`/`ExA1`) and `Fx0A`
are absent. -/
def Recognized (opcode : Nat) : Prop :=
  let first := (opcode &&& 0xF000) >>> 12
  let n := opcode &&& 0x000F
  let nn := opcode &&& 0x00FF
  (first = 0x0 ∧ (nn = 0xE0 ∨ nn = 0xEE)) ∨
  first = 0x1 ∨ first = 0x2 ∨ first = 0x3 ∨ first = 0x4 ∨ first = 0x5 ∨
  first = 0x6 ∨ first = 0x7 ∨
  (first = 0x8 ∧ (n ≤ 7 ∨ n = 0xE)) ∨
  first = 0x9 ∨ first = 0xA ∨ first = 0xB ∨ first = 0xC ∨ first = 0xD ∨
  (first = 0xF ∧ (nn = 0x07 ∨ nn = 0x15 ∨ nn = 0x18 ∨ nn = 0x29 ∨ nn = 0x33 ∨
    nn = 0x1E ∨ nn = 0x55 ∨ nn = 0x65))

set_option maxHeartbeats 1000000 in
/-- C7 (amended): `decode` succeeds exactly on the `Recognized` patterns —
which differ from the spec's table in that `Ex9E`, `ExA1` and `Fx0A` are
rejected, `5xyn`/`9xyn` are accepted for every final nibble `n`, and the
`00E0`/`00EE` arms ignore the middle nibbles — and every rejected opcode yields
a decode failure carrying the raw opcode value. -/
theorem decode_characterization (opcode : Nat) :
    ((∃ ins, decode opcode = Except.ok ins) ↔ Recognized opcode) ∧
    (¬ Recognized opcode → decode opcode = Except.error opcode) := by
  have hlt : (opcode &&& 0xF000) >>> 12 < 16 := by
    have h : opcode &&& 0xF000 ≤ 0xF000 := Nat.and_le_right
    rw [Nat.shiftRight_eq_div_pow]
    calc (opcode &&& 0xF000) / 2 ^ 12 ≤ 0xF000 / 2 ^ 12 := Nat.div_le_div_right h
      _ < 16 := by norm_num
  dsimp only [decode, Recognized]
  generalize hnn : opcode &&& 0x00FF = nn2
  generalize hn4 : opcode &&& 0x000F = n4
  generalize hf : (opcode &&& 0xF000) >>> 12 = f at hlt ⊢
  interval_cases f <;> (try norm_num) <;> (try split_ifs) <;> (try simp_all) <;> omega

/-- C7 counterexample: the claim's table demands that `0xE19E` (a well-formed
`Ex9E` skip-if-key) decodes successfully and that `0x5121` (a `5xyn` with final
nibble 1) is rejected; the code does the opposite on both. -/
theorem decode_claim_cex :
    decode 0xE19E = Except.error 0xE19E ∧ decode 0x5121 = Except.ok (.SEQR 1 2) := by
  exact ⟨rfl, rfl⟩

/-! ## C9: memory bounds of Fx55 and Fx33 -/

/-- Total register accessor used on the specification side (`0` out of range). -/
def getV (s : Chip8) (k : Nat) : Nat := if h : k < 16 then s.v ⟨k, h⟩ else 0

theorem storeRegs_spec :
    ∀ (cnt k : Nat) (s : Chip8), k + cnt ≤ 16 → s.i + k + cnt ≤ 4096 →
    ∃ s1, storeRegs s k cnt = some s1 ∧
      s1.program_counter = s.program_counter ∧ s1.i = s.i ∧ s1.stack = s.stack ∧
      s1.sp = s.sp ∧ s1.delay = s.delay ∧ s1.sound = s.sound ∧ s1.v = s.v ∧
      s1.display = s.display ∧ s1.update_display = s.update_display ∧
      s1.keyboard = s.keyboard ∧
      (∀ a : Nat, s.i + k ≤ a → a < s.i + k + cnt → mem8 s1 a = getV s (a - s.i)) ∧
      (∀ a : Nat, a < s.i + k ∨ s.i + k + cnt ≤ a → mem8 s1 a = mem8 s a) := by
  intro cnt
  induction cnt with
  | zero =>
    intro k s hk hmem
    exact ⟨s, rfl, rfl, rfl, rfl, rfl, rfl, rfl, rfl, rfl, rfl, rfl,
      fun a h1 h2 => absurd h2 (by omega), fun a h => rfl⟩
  | succ c ih =>
    intro k s hk hmem
    have hk16 : k < 16 := by omega
    have haddr : s.i + k < 4096 := by omega
    have hred : storeRegs s k (c + 1) =
        storeRegs { s with memory := updMem s.memory ⟨s.i + k, haddr⟩ (s.v ⟨k, hk16⟩) }
          (k + 1) c := by
      simp [storeRegs, vRead, memWrite, dif_pos hk16, dif_pos haddr]
    set s1' : Chip8 :=
      { s with memory := updMem s.memory ⟨s.i + k, haddr⟩ (s.v ⟨k, hk16⟩) } with hs1'
    obtain ⟨s1, hrun, hpc, hi, hstk, hsp, hdel, hsnd, hv, hdisp, hupd, hkb, hin, hout⟩ :=
      ih (k + 1) s1' (by omega) (by simp only [hs1']; omega)
    have hw := mem8_write s ⟨s.i + k, haddr⟩ (s.v ⟨k, hk16⟩)
    refine ⟨s1, hred.trans hrun, hpc, hi, hstk, hsp, hdel, hsnd, hv, hdisp, hupd, hkb,
      ?_, ?_⟩
    · intro a h1 h2
      by_cases ha : a = s.i + k
      · have h3 : a < s1'.i + (k + 1) ∨ True := Or.inl (by simp only [hs1']; omega)
        have := hout a (Or.inl (by simp only [hs1']; omega))
        rw [this, hw a, if_pos ha]
        have hak : a - s.i = k := by omega
        rw [hak, getV, dif_pos hk16]
      · have := hin a (by simp only [hs1']; omega) (by simp only [hs1']; omega)
        rw [this]
        rfl
    · intro a ha
      have hne : ¬ (a = s.i + k) := by omega
      have := hout a (by simp only [hs1']; omega)
      rw [this, hw a, if_neg hne]

/-- C9 counterexample: with `I = 4095`, executing `F155` (`Fx55` with `x = 1`)
must write to address `I + 1 = 4096`, which is out of the 4096-byte memory: the
code aborts with an index panic instead of completing totally as claimed.  The
same state aborts `Fx33`, whose last digit write targets `I + 2 = 4097`. -/
def c9CexSt : Chip8 := { Chip8.new with i := 4095 }

theorem store_oob_cex :
    execute 0 c9CexSt (.StoreMemory 1) = none ∧
    execute 0 c9CexSt (.BinaryToDecimal 0) = none := by
  exact ⟨rfl, rfl⟩

/-- C9 (amended): whenever `I + x ≤ 4095`, `Fx55` writes `V0..Vx` to
`memory[I..I+x]` and changes nothing else, and whenever `I + 2 ≤ 4095`, `Fx33`
stores the three decimal digits of `Vx` at `I, I+1, I+2` and changes nothing
else; in both cases every write is in bounds.  For larger `I` the instruction
aborts with an index panic (see the counterexample) — memory outside the array
is never written, but execution is not total. -/
theorem store_bcd_inbounds (rnd : Nat) (st : Chip8) (x : Fin 16) :
    (st.i + x.val < 4096 →
      ∃ s1, execute rnd st (.StoreMemory x) = some s1 ∧
      s1.program_counter = st.program_counter ∧ s1.i = st.i ∧ s1.stack = st.stack ∧
      s1.sp = st.sp ∧ s1.delay = st.delay ∧ s1.sound = st.sound ∧ s1.v = st.v ∧
      s1.display = st.display ∧ s1.update_display = st.update_display ∧
      s1.keyboard = st.keyboard ∧
      (∀ a : Nat, st.i ≤ a → a ≤ st.i + x.val → mem8 s1 a = getV st (a - st.i)) ∧
      (∀ a : Nat, a < st.i ∨ st.i + x.val < a → mem8 s1 a = mem8 st a)) ∧
    (st.i + 2 < 4096 →
      ∃ s2, execute rnd st (.BinaryToDecimal x) = some s2 ∧
      s2.program_counter = st.program_counter ∧ s2.i = st.i ∧ s2.stack = st.stack ∧
      s2.sp = st.sp ∧ s2.delay = st.delay ∧ s2.sound = st.sound ∧ s2.v = st.v ∧
      s2.display = st.display ∧ s2.update_display = st.update_display ∧
      s2.keyboard = st.keyboard ∧
      mem8 s2 st.i = st.v x / 100 ∧
      mem8 s2 (st.i + 1) = st.v x / 10 % 10 ∧
      mem8 s2 (st.i + 2) = st.v x % 10 ∧
      (∀ a : Nat, a < st.i ∨ st.i + 2 < a → mem8 s2 a = mem8 st a)) := by
  constructor
  · intro h55
    obtain ⟨s1, hrun, hpc, hi, hstk, hsp, hdel, hsnd, hv, hdisp, hupd, hkb, hin, hout⟩ :=
      storeRegs_spec (x.val + 1) 0 st (by have := x.isLt; omega) (by omega)
    refine ⟨s1, hrun, hpc, hi, hstk, hsp, hdel, hsnd, hv, hdisp, hupd, hkb, ?_, ?_⟩
    · intro a h1 h2
      exact hin a (by omega) (by omega)
    · intro a ha
      exact hout a (by omega)
  · intro h33
    have h0 : st.i < 4096 := by omega
    have h1 : st.i + 1 < 4096 := by omega
    have h2 : st.i + 2 < 4096 := by omega
    set m1 : Chip8 :=
      { st with memory := updMem st.memory ⟨st.i, h0⟩ (st.v x / 100) } with hm1
    set m2 : Chip8 :=
      { m1 with memory := updMem m1.memory ⟨st.i + 1, h1⟩ (st.v x / 10 % 10) } with hm2
    set m3 : Chip8 :=
      { m2 with memory := updMem m2.memory ⟨st.i + 2, h2⟩ (st.v x % 10) } with hm3
    have hred : execute rnd st (.BinaryToDecimal x) = some m3 := by
      simp [execute, memWrite, dif_pos h0, dif_pos h1, dif_pos h2, hm1, hm2, hm3]
    have hw1 := mem8_write st ⟨st.i, h0⟩ (st.v x / 100)
    have hw2 := mem8_write m1 ⟨st.i + 1, h1⟩ (st.v x / 10 % 10)
    have hw3 := mem8_write m2 ⟨st.i + 2, h2⟩ (st.v x % 10)
    simp only [Fin.val_mk] at hw1 hw2 hw3
    refine ⟨m3, hred, rfl, rfl, rfl, rfl, rfl, rfl, rfl, rfl, rfl, rfl, ?_, ?_, ?_, ?_⟩
    · rw [hw3 st.i, if_neg (by omega), hw2 st.i, if_neg (by omega), hw1 st.i,
        if_pos rfl]
    · rw [hw3 (st.i + 1), if_neg (by omega), hw2 (st.i + 1), if_pos rfl]
    · rw [hw3 (st.i + 2), if_pos rfl]
    · intro a ha
      rw [hw3 a, if_neg (by omega), hw2 a, if_neg (by omega), hw1 a, if_neg (by omega)]

/-- Concrete in-bounds input for the C9 theorem: `I = 0x300`, `x = 1`. -/
def c9WitSt : Chip8 :=
  { Chip8.new with i := 0x300, v := fun j => if j = 0 then 123 else if j = 1 then 45 else 0 }

/-- Near-the-end input where only the `Fx33` bound holds: `I = 4090`, so
`I + 2 = 4092 ≤ 4095` although `I + 15 ≥ 4096`. -/
def c9BcdEdgeSt : Chip8 := { Chip8.new with i := 4090 }

/-- Last-byte input for `Fx55` with `x = 0`: `I = 4095`, the single write lands
on the final memory cell. -/
def c9StoreEdgeSt : Chip8 := { Chip8.new with i := 4095 }

theorem store_bcd_inbounds_witness :
    (execute 0 c9WitSt (.StoreMemory 1)).isSome = true ∧
    (execute 0 c9WitSt (.BinaryToDecimal 1)).isSome = true ∧
    (execute 0 c9BcdEdgeSt (.BinaryToDecimal 15)).isSome = true ∧
    (execute 0 c9StoreEdgeSt (.StoreMemory 0)).isSome = true := by
  refine ⟨?_, ?_, ?_, ?_⟩
  · obtain ⟨s1, h1, _⟩ := (store_bcd_inbounds 0 c9WitSt 1).1 (by decide)
    rw [h1]
    rfl
  · obtain ⟨s2, h2, _⟩ := (store_bcd_inbounds 0 c9WitSt 1).2 (by decide)
    rw [h2]
    rfl
  · obtain ⟨s2, h2, _⟩ := (store_bcd_inbounds 0 c9BcdEdgeSt 15).2 (by decide)
    rw [h2]
    rfl
  · obtain ⟨s1, h1, _⟩ := (store_bcd_inbounds 0 c9StoreEdgeSt 0).1 (by decide)
    rw [h1]
    rfl

/-! ## C10: frame effect of the four skip instructions -/

/-- State equality on every field except the program counter. -/
def EqExceptPc (s1 s : Chip8) : Prop :=
  s1.memory = s.memory ∧ s1.i = s.i ∧ s1.stack = s.stack ∧ s1.sp = s.sp ∧
  s1.delay = s.delay ∧ s1.sound = s.sound ∧ s1.v = s.v ∧ s1.display = s.display ∧
  s1.update_display = s.update_display ∧ s1.keyboard = s.keyboard

/-- C10 (amended): provided the program counter does not overflow 16 bits
(`pc ≤ 65533`), each of `3xnn`, `4xnn`, `5xy0`, `9xy0` succeeds changing at most
the program counter — by exactly 2 when its skip condition holds, otherwise not
at all — and every other field (registers, memory, index, stack, stack pointer,
timers, framebuffer, dirty flag, keypad) is unchanged.  At `pc ≥ 65534` a taken
skip aborts with a debug-profile add-overflow panic (see the counterexample). -/
theorem skip_frame_spec (rnd : Nat) (st : Chip8) (x y : Fin 16) (nn : Nat)
    (hpc : st.program_counter ≤ 65533) :
    (∃ s1, execute rnd st (.SEQ x nn) = some s1 ∧ EqExceptPc s1 st ∧
      s1.program_counter =
        (if st.v x = nn then st.program_counter + 2 else st.program_counter)) ∧
    (∃ s1, execute rnd st (.SNEQ x nn) = some s1 ∧ EqExceptPc s1 st ∧
      s1.program_counter =
        (if st.v x ≠ nn then st.program_counter + 2 else st.program_counter)) ∧
    (∃ s1, execute rnd st (.SEQR x y) = some s1 ∧ EqExceptPc s1 st ∧
      s1.program_counter =
        (if st.v x = st.v y then st.program_counter + 2 else st.program_counter)) ∧
    (∃ s1, execute rnd st (.SNEQR x y) = some s1 ∧ EqExceptPc s1 st ∧
      s1.program_counter =
        (if st.v x ≠ st.v y then st.program_counter + 2 else st.program_counter)) := by
  have hskip : pcSkip st = some { st with program_counter := st.program_counter + 2 } := by
    rw [pcSkip, if_pos (by omega)]
  refine ⟨?_, ?_, ?_, ?_⟩
  · by_cases h : st.v x = nn
    · refine ⟨{ st with program_counter := st.program_counter + 2 }, ?_,
        ⟨rfl, rfl, rfl, rfl, rfl, rfl, rfl, rfl, rfl, rfl⟩, ?_⟩
      · rw [execute, if_pos h, hskip]
      · rw [if_pos h]
    · refine ⟨st, ?_, ⟨rfl, rfl, rfl, rfl, rfl, rfl, rfl, rfl, rfl, rfl⟩, ?_⟩
      · rw [execute, if_neg h]
      · rw [if_neg h]
  · by_cases h : st.v x ≠ nn
    · refine ⟨{ st with program_counter := st.program_counter + 2 }, ?_,
        ⟨rfl, rfl, rfl, rfl, rfl, rfl, rfl, rfl, rfl, rfl⟩, ?_⟩
      · rw [execute, if_pos h, hskip]
      · rw [if_pos h]
    · refine ⟨st, ?_, ⟨rfl, rfl, rfl, rfl, rfl, rfl, rfl, rfl, rfl, rfl⟩, ?_⟩
      · rw [execute, if_neg h]
      · rw [if_neg h]
  · by_cases h : st.v x = st.v y
    · refine ⟨{ st with program_counter := st.program_counter + 2 }, ?_,
        ⟨rfl, rfl, rfl, rfl, rfl, rfl, rfl, rfl, rfl, rfl⟩, ?_⟩
      · rw [execute, if_pos h, hskip]
      · rw [if_pos h]
    · refine ⟨st, ?_, ⟨rfl, rfl, rfl, rfl, rfl, rfl, rfl, rfl, rfl, rfl⟩, ?_⟩
      · rw [execute, if_neg h]
      · rw [if_neg h]
  · by_cases h : st.v x ≠ st.v y
    · refine ⟨{ st with program_counter := st.program_counter + 2 }, ?_,
        ⟨rfl, rfl, rfl, rfl, rfl, rfl, rfl, rfl, rfl, rfl⟩, ?_⟩
      · rw [execute, if_pos h, hskip]
      · rw [if_pos h]
    · refine ⟨st, ?_, ⟨rfl, rfl, rfl, rfl, rfl, rfl, rfl, rfl, rfl, rfl⟩, ?_⟩
      · rw [execute, if_neg h]
      · rw [if_neg h]

/-- C10 counterexample: at `pc = 0xFFFE` a taken `3xnn` skip overflows the
16-bit program counter and the code panics (debug-profile add overflow) instead
of changing only the program counter by 2. -/
def c10CexSt : Chip8 := { Chip8.new with program_counter := 0xFFFE }

theorem skip_overflow_cex : execute 0 c10CexSt (.SEQ 0 0) = none := by
  exact rfl

/-- Concrete input for the C10 theorem: `pc = 0x200`. -/
def c10WitSt : Chip8 := { Chip8.new with program_counter := 0x200 }

theorem skip_frame_spec_witness :
    (execute 0 c10WitSt (.SEQ 0 0)).isSome = true ∧
    (execute 0 c10WitSt (.SNEQR 0 1)).isSome = true := by
  constructor
  · obtain ⟨⟨s1, h1, _⟩, _, _, _⟩ := skip_frame_spec 0 c10WitSt 0 1 0 (by decide)
    rw [h1]
    rfl
  · obtain ⟨_, _, _, ⟨s1, h1, _⟩⟩ := skip_frame_spec 0 c10WitSt 0 1 0 (by decide)
    rw [h1]
    rfl

/-! ## C6: the Dxyn draw instruction -/

/-- Sprite bit `c` (leftmost bit first) of a sprite row byte is set. -/
def bitOn (byte c : Nat) : Prop := (byte >>> (7 - c)) % 2 = 1

/-- The inner loop body at column `c` targets screen pixel `(cx, ry)` and draws:
the pixel is in bounds and the sprite bit is set. -/
def colHit (x0 y0 byte row c ry cx : Nat) : Prop :=
  ry = y0 + row ∧ cx = x0 + c ∧ bitOn byte c ∧ ry < 32 ∧ cx < 64

/-- The inner loop body at column `c` reports a collision against state `s`. -/
def colColl (s : Chip8) (x0 y0 byte row c : Nat) : Prop :=
  y0 + row < 32 ∧ x0 + c < 64 ∧ bitOn byte c ∧ getPix s (y0 + row) (x0 + c) = true

theorem getPix_eq (s : Chip8) (ry cx : Nat) (h32 : ry < 32) (h64 : cx < 64) :
    getPix s ry cx = s.display ⟨ry, h32⟩ ⟨cx, h64⟩ := by
  rw [getPix, dif_pos ⟨h32, h64⟩]

theorem getPix_oob (s : Chip8) (ry cx : Nat) (h : ¬ (ry < 32 ∧ cx < 64)) :
    getPix s ry cx = false := by
  rw [getPix, dif_neg h]

theorem drawCol_frame (x0 y0 byte row c : Nat) (s : Chip8) :
    (drawCol x0 y0 byte row c s).memory = s.memory ∧
    (drawCol x0 y0 byte row c s).i = s.i ∧
    (drawCol x0 y0 byte row c s).program_counter = s.program_counter ∧
    (drawCol x0 y0 byte row c s).stack = s.stack ∧
    (drawCol x0 y0 byte row c s).sp = s.sp ∧
    (drawCol x0 y0 byte row c s).delay = s.delay ∧
    (drawCol x0 y0 byte row c s).sound = s.sound ∧
    (drawCol x0 y0 byte row c s).update_display = s.update_display ∧
    (drawCol x0 y0 byte row c s).keyboard = s.keyboard := by
  dsimp only [drawCol]
  split_ifs <;> exact ⟨rfl, rfl, rfl, rfl, rfl, rfl, rfl, rfl, rfl⟩

theorem drawCol_v_ne (x0 y0 byte row c : Nat) (s : Chip8) (j : Fin 16) (hj : j ≠ 15) :
    (drawCol x0 y0 byte row c s).v j = s.v j := by
  dsimp only [drawCol]
  by_cases hx : x0 + c < 64
  · by_cases hy : y0 + row < 32
    · by_cases hbit : (byte >>> (7 - c)) % 2 = 1
      · rw [dif_pos hx, dif_pos hy, if_pos hbit]
        dsimp only
        by_cases hpix : s.display ⟨y0 + row, hy⟩ ⟨x0 + c, hx⟩ = true
        · rw [if_pos hpix, updV_ne _ _ _ _ hj]
        · rw [if_neg hpix]
      · rw [dif_pos hx, dif_pos hy, if_neg hbit]
    · rw [dif_pos hx, dif_neg hy]
  · rw [dif_neg hx]

theorem drawCol_v15_coll (x0 y0 byte row c : Nat) (s : Chip8)
    (h : colColl s x0 y0 byte row c) : (drawCol x0 y0 byte row c s).v 15 = 1 := by
  obtain ⟨hy, hx, hbit, hpix⟩ := h
  have hbit2 : (byte >>> (7 - c)) % 2 = 1 := hbit
  rw [getPix_eq s _ _ hy hx] at hpix
  dsimp only [drawCol]
  rw [dif_pos hx, dif_pos hy, if_pos hbit2]
  dsimp only
  rw [if_pos hpix, updV_self]

theorem drawCol_v15_nocoll (x0 y0 byte row c : Nat) (s : Chip8)
    (h : ¬ colColl s x0 y0 byte row c) : (drawCol x0 y0 byte row c s).v 15 = s.v 15 := by
  dsimp only [drawCol]
  by_cases hx : x0 + c < 64
  · by_cases hy : y0 + row < 32
    · by_cases hbit : (byte >>> (7 - c)) % 2 = 1
      · by_cases hpix : s.display ⟨y0 + row, hy⟩ ⟨x0 + c, hx⟩ = true
        · exact absurd ⟨hy, hx, hbit, by rw [getPix_eq s _ _ hy hx]; exact hpix⟩ h
        · rw [dif_pos hx, dif_pos hy, if_pos hbit]
          dsimp only
          rw [if_neg hpix]
      · rw [dif_pos hx, dif_pos hy, if_neg hbit]
    · rw [dif_pos hx, dif_neg hy]
  · rw [dif_neg hx]

theorem drawCol_getPix_hit (x0 y0 byte row c ry cx : Nat) (s : Chip8)
    (h : colHit x0 y0 byte row c ry cx) :
    getPix (drawCol x0 y0 byte row c s) ry cx = !(getPix s ry cx) := by
  obtain ⟨hry, hcx, hbit, h32, h64⟩ := h
  subst hry
  subst hcx
  have hbit2 : (byte >>> (7 - c)) % 2 = 1 := hbit
  dsimp only [drawCol]
  rw [dif_pos h64, dif_pos h32, if_pos hbit2]
  rw [getPix_eq _ _ _ h32 h64, getPix_eq s _ _ h32 h64]
  dsimp only
  rw [updPix, if_pos ⟨rfl, rfl⟩]

theorem drawCol_getPix_miss (x0 y0 byte row c ry cx : Nat) (s : Chip8)
    (h : ¬ colHit x0 y0 byte row c ry cx) :
    getPix (drawCol x0 y0 byte row c s) ry cx = getPix s ry cx := by
  dsimp only [drawCol]
  by_cases hx : x0 + c < 64
  · by_cases hy : y0 + row < 32
    · by_cases hbit : (byte >>> (7 - c)) % 2 = 1
      · rw [dif_pos hx, dif_pos hy, if_pos hbit]
        have hne : ¬ (ry = y0 + row ∧ cx = x0 + c) := by
          intro hc
          exact h ⟨hc.1, hc.2, hbit, hc.1 ▸ hy, hc.2 ▸ hx⟩
        by_cases hb : ry < 32 ∧ cx < 64
        · rw [getPix_eq _ _ _ hb.1 hb.2, getPix_eq s _ _ hb.1 hb.2]
          have hfin : ¬ ((⟨ry, hb.1⟩ : Fin 32) = ⟨y0 + row, hy⟩ ∧
              (⟨cx, hb.2⟩ : Fin 64) = ⟨x0 + c, hx⟩) := by
            intro hc
            exact hne ⟨congrArg Fin.val hc.1, congrArg Fin.val hc.2⟩
          dsimp only
          rw [updPix, if_neg hfin]
        · rw [getPix_oob _ _ _ hb, getPix_oob s _ _ hb]
      · rw [dif_pos hx, dif_pos hy, if_neg hbit]
    · rw [dif_pos hx, dif_neg hy]
  · rw [dif_neg hx]

theorem drawCols_frame (x0 y0 byte row : Nat) (cs : List Nat) :
    ∀ s : Chip8,
    (drawCols x0 y0 byte row s cs).memory = s.memory ∧
    (drawCols x0 y0 byte row s cs).i = s.i ∧
    (drawCols x0 y0 byte row s cs).program_counter = s.program_counter ∧
    (drawCols x0 y0 byte row s cs).stack = s.stack ∧
    (drawCols x0 y0 byte row s cs).sp = s.sp ∧
    (drawCols x0 y0 byte row s cs).delay = s.delay ∧
    (drawCols x0 y0 byte row s cs).sound = s.sound ∧
    (drawCols x0 y0 byte row s cs).update_display = s.update_display ∧
    (drawCols x0 y0 byte row s cs).keyboard = s.keyboard := by
  induction cs with
  | nil => exact fun s => ⟨rfl, rfl, rfl, rfl, rfl, rfl, rfl, rfl, rfl⟩
  | cons c rest ih =>
    intro s
    obtain ⟨h1, h2, h3, h4, h5, h6, h7, h8, h9⟩ := drawCol_frame x0 y0 byte row c s
    obtain ⟨g1, g2, g3, g4, g5, g6, g7, g8, g9⟩ := ih (drawCol x0 y0 byte row c s)
    exact ⟨g1.trans h1, g2.trans h2, g3.trans h3, g4.trans h4, g5.trans h5,
      g6.trans h6, g7.trans h7, g8.trans h8, g9.trans h9⟩

theorem drawCols_v_ne (x0 y0 byte row : Nat) (cs : List Nat) :
    ∀ (s : Chip8) (j : Fin 16), j ≠ 15 →
    (drawCols x0 y0 byte row s cs).v j = s.v j := by
  induction cs with
  | nil => exact fun s j _ => rfl
  | cons c rest ih =>
    intro s j hj
    exact (ih (drawCol x0 y0 byte row c s) j hj).trans (drawCol_v_ne x0 y0 byte row c s j hj)

theorem drawCols_getPix (x0 y0 byte row : Nat) (cs : List Nat) (ry cx : Nat) :
    ∀ s : Chip8, cs.Nodup →
    ((∃ c ∈ cs, colHit x0 y0 byte row c ry cx) →
      getPix (drawCols x0 y0 byte row s cs) ry cx = !(getPix s ry cx)) ∧
    ((¬ ∃ c ∈ cs, colHit x0 y0 byte row c ry cx) →
      getPix (drawCols x0 y0 byte row s cs) ry cx = getPix s ry cx) := by
  induction cs with
  | nil =>
    intro s _
    constructor
    · rintro ⟨c, hc, _⟩
      exact absurd hc (List.not_mem_nil c)
    · intro _
      rfl
  | cons c rest ih =>
    intro s hnd
    obtain ⟨hcni, hndr⟩ := List.nodup_cons.mp hnd
    obtain ⟨ih1, ih2⟩ := ih (drawCol x0 y0 byte row c s) hndr
    simp only [drawCols]
    by_cases h1 : colHit x0 y0 byte row c ry cx
    · have h2 : ¬ ∃ c1 ∈ rest, colHit x0 y0 byte row c1 ry cx := by
        rintro ⟨c1, hc1, hh1⟩
        have he1 : cx = x0 + c1 := hh1.2.1
        have he2 : cx = x0 + c := h1.2.1
        have : c1 = c := by omega
        exact hcni (this ▸ hc1)
      constructor
      · intro _
        rw [ih2 h2, drawCol_getPix_hit x0 y0 byte row c ry cx s h1]
      · intro hno
        exact absurd ⟨c, List.mem_cons_self c rest, h1⟩ hno
    · constructor
      · rintro ⟨c1, hc1, hh1⟩
        rcases List.mem_cons.mp hc1 with he | hr
        · exact absurd (he ▸ hh1) h1
        · rw [ih1 ⟨c1, hr, hh1⟩, drawCol_getPix_miss x0 y0 byte row c ry cx s h1]
      · intro hno
        have h2 : ¬ ∃ c1 ∈ rest, colHit x0 y0 byte row c1 ry cx := by
          rintro ⟨c1, hr, hh⟩
          exact hno ⟨c1, List.mem_cons_of_mem c hr, hh⟩
        rw [ih2 h2, drawCol_getPix_miss x0 y0 byte row c ry cx s h1]

theorem drawCols_v15 (x0 y0 byte row : Nat) (cs : List Nat) :
    ∀ s : Chip8, cs.Nodup →
    ((∃ c ∈ cs, colColl s x0 y0 byte row c) →
      (drawCols x0 y0 byte row s cs).v 15 = 1) ∧
    ((¬ ∃ c ∈ cs, colColl s x0 y0 byte row c) →
      (drawCols x0 y0 byte row s cs).v 15 = s.v 15) := by
  induction cs with
  | nil =>
    intro s _
    constructor
    · rintro ⟨c, hc, _⟩
      exact absurd hc (List.not_mem_nil c)
    · intro _
      rfl
  | cons c rest ih =>
    intro s hnd
    obtain ⟨hcni, hndr⟩ := List.nodup_cons.mp hnd
    obtain ⟨ih1, ih2⟩ := ih (drawCol x0 y0 byte row c s) hndr
    simp only [drawCols]
    have hgp : ∀ c1, c1 ≠ c →
        getPix (drawCol x0 y0 byte row c s) (y0 + row) (x0 + c1) =
          getPix s (y0 + row) (x0 + c1) := by
      intro c1 hne
      refine drawCol_getPix_miss x0 y0 byte row c (y0 + row) (x0 + c1) s ?_
      rintro ⟨_, h2, _⟩
      exact hne (by omega)
    have hcoll : ∀ c1, c1 ≠ c →
        (colColl (drawCol x0 y0 byte row c s) x0 y0 byte row c1 ↔
          colColl s x0 y0 byte row c1) := by
      intro c1 hne
      unfold colColl
      rw [hgp c1 hne]
    by_cases h1 : colColl s x0 y0 byte row c
    · have hv1 : (drawCol x0 y0 byte row c s).v 15 = 1 :=
        drawCol_v15_coll x0 y0 byte row c s h1
      constructor
      · intro _
        by_cases h2 : ∃ c1 ∈ rest, colColl (drawCol x0 y0 byte row c s) x0 y0 byte row c1
        · exact ih1 h2
        · rw [ih2 h2, hv1]
      · intro hno
        exact absurd ⟨c, List.mem_cons_self c rest, h1⟩ hno
    · have hv1 : (drawCol x0 y0 byte row c s).v 15 = s.v 15 :=
        drawCol_v15_nocoll x0 y0 byte row c s h1
      constructor
      · rintro ⟨c1, hc1, hcoll1⟩
        rcases List.mem_cons.mp hc1 with he | hr
        · exact absurd (he ▸ hcoll1) h1
        · have hc1ne : c1 ≠ c := fun he2 => hcni (he2 ▸ hr)
          exact ih1 ⟨c1, hr, (hcoll c1 hc1ne).mpr hcoll1⟩
      · intro hno
        have h2 : ¬ ∃ c1 ∈ rest, colColl (drawCol x0 y0 byte row c s) x0 y0 byte row c1 := by
          rintro ⟨c1, hr, hcoll1⟩
          have hc1ne : c1 ≠ c := fun he2 => hcni (he2 ▸ hr)
          exact hno ⟨c1, List.mem_cons_of_mem c hr, (hcoll c1 hc1ne).mp hcoll1⟩
        rw [ih2 h2, hv1]

/-- The whole sprite hits pixel `(cx, ry)`: some row `r` of `rows` and some
column `c < 8` target it with a set sprite bit, read from memory at `I + r`. -/
def rowsHit (s : Chip8) (x0 y0 : Nat) (rows : List Nat) (ry cx : Nat) : Prop :=
  ∃ r ∈ rows, ∃ c ∈ List.range 8, colHit x0 y0 (mem8 s (s.i + r)) r c ry cx

/-- The whole sprite collides against the framebuffer of `s` somewhere. -/
def rowsColl (s : Chip8) (x0 y0 : Nat) (rows : List Nat) : Prop :=
  ∃ r ∈ rows, ∃ c ∈ List.range 8, colColl s x0 y0 (mem8 s (s.i + r)) r c

theorem rowsHit_congr (s1 s : Chip8) (hi : s1.i = s.i) (hm : s1.memory = s.memory)
    (x0 y0 : Nat) (rows : List Nat) (ry cx : Nat) :
    rowsHit s1 x0 y0 rows ry cx ↔ rowsHit s x0 y0 rows ry cx := by
  unfold rowsHit
  constructor <;> rintro ⟨r, hr, c, hc, hh⟩ <;> refine ⟨r, hr, c, hc, ?_⟩
  · rwa [hi, mem8_congr s1 s hm] at hh
  · rwa [hi, mem8_congr s1 s hm]

theorem drawRows_spec (x0 y0 : Nat) (rows : List Nat) :
    ∀ s : Chip8, rows.Nodup → (∀ r ∈ rows, s.i + r < 4096) →
    ∃ s2, drawRows x0 y0 s rows = some s2 ∧
      s2.memory = s.memory ∧ s2.i = s.i ∧ s2.program_counter = s.program_counter ∧
      s2.stack = s.stack ∧ s2.sp = s.sp ∧ s2.delay = s.delay ∧ s2.sound = s.sound ∧
      s2.update_display = s.update_display ∧ s2.keyboard = s.keyboard ∧
      (∀ j : Fin 16, j ≠ 15 → s2.v j = s.v j) ∧
      (∀ ry cx : Nat,
        (rowsHit s x0 y0 rows ry cx → getPix s2 ry cx = !(getPix s ry cx)) ∧
        (¬ rowsHit s x0 y0 rows ry cx → getPix s2 ry cx = getPix s ry cx)) ∧
      (rowsColl s x0 y0 rows → s2.v 15 = 1) ∧
      (¬ rowsColl s x0 y0 rows → s2.v 15 = s.v 15) := by
  induction rows with
  | nil =>
    intro s _ _
    refine ⟨s, rfl, rfl, rfl, rfl, rfl, rfl, rfl, rfl, rfl, rfl, fun j _ => rfl,
      fun ry cx => ⟨?_, fun _ => rfl⟩, ?_, fun _ => rfl⟩
    · rintro ⟨r, hr, _⟩
      exact absurd hr (List.not_mem_nil r)
    · rintro ⟨r, hr, _⟩
      exact absurd hr (List.not_mem_nil r)
  | cons r rest ih =>
    intro s hnd hin
    obtain ⟨hrni, hndr⟩ := List.nodup_cons.mp hnd
    have haddr : s.i + r < 4096 := hin r (List.mem_cons_self r rest)
    have hbyte8 : mem8 s (s.i + r) = s.memory ⟨s.i + r, haddr⟩ := by
      rw [mem8, dif_pos haddr]
    set byte := s.memory ⟨s.i + r, haddr⟩ with hbytedef
    set s1 := drawCols x0 y0 byte r s (List.range 8) with hs1
    obtain ⟨f1mem, f1i, f1pc, f1stk, f1sp, f1del, f1snd, f1upd, f1kb⟩ :=
      drawCols_frame x0 y0 byte r (List.range 8) s
    obtain ⟨s2, hrun, hmem2, hi2, hpc2, hstk2, hsp2, hdel2, hsnd2, hupd2, hkb2,
      hvne2, hpix2, hcoll2, hncoll2⟩ :=
      ih s1 hndr (by intro r1 hr1; rw [f1i]; exact hin r1 (List.mem_cons_of_mem r hr1))
    have hrunfull : drawRows x0 y0 s (r :: rest) = some s2 := by
      rw [drawRows, memRead, dif_pos haddr]
      exact hrun
    -- splitting the head row off the hit predicate
    have hsplit : ∀ ry cx, rowsHit s x0 y0 (r :: rest) ry cx ↔
        ((∃ c ∈ List.range 8, colHit x0 y0 byte r c ry cx) ∨
          rowsHit s x0 y0 rest ry cx) := by
      intro ry cx
      unfold rowsHit
      constructor
      · rintro ⟨r1, hr1, c, hc, hh⟩
        rcases List.mem_cons.mp hr1 with he | hrr
        · subst he
          rw [hbyte8] at hh
          exact Or.inl ⟨c, hc, hh⟩
        · exact Or.inr ⟨r1, hrr, c, hc, hh⟩
      · rintro (⟨c, hc, hh⟩ | ⟨r1, hrr, c, hc, hh⟩)
        · exact ⟨r, List.mem_cons_self r rest, c, hc, by rw [hbyte8]; exact hh⟩
        · exact ⟨r1, List.mem_cons_of_mem r hrr, c, hc, hh⟩
    have hsplitC : rowsColl s x0 y0 (r :: rest) ↔
        ((∃ c ∈ List.range 8, colColl s x0 y0 byte r c) ∨ rowsColl s x0 y0 rest) := by
      unfold rowsColl
      constructor
      · rintro ⟨r1, hr1, c, hc, hh⟩
        rcases List.mem_cons.mp hr1 with he | hrr
        · subst he
          rw [hbyte8] at hh
          exact Or.inl ⟨c, hc, hh⟩
        · exact Or.inr ⟨r1, hrr, c, hc, hh⟩
      · rintro (⟨c, hc, hh⟩ | ⟨r1, hrr, c, hc, hh⟩)
        · exact ⟨r, List.mem_cons_self r rest, c, hc, by rw [hbyte8]; exact hh⟩
        · exact ⟨r1, List.mem_cons_of_mem r hrr, c, hc, hh⟩
    -- pixels of rows in `rest` are untouched by drawing the head row
    have hgp1 : ∀ r1 c : Nat, r1 ≠ r →
        getPix s1 (y0 + r1) (x0 + c) = getPix s (y0 + r1) (x0 + c) := by
      intro r1 c hne
      rw [hs1]
      refine (drawCols_getPix x0 y0 byte r (List.range 8) (y0 + r1) (x0 + c) s
        (List.nodup_range 8)).2 ?_
      rintro ⟨c1, hc1, hh⟩
      exact hne (by have := hh.1; omega)
    have hcollr : rowsColl s1 x0 y0 rest ↔ rowsColl s x0 y0 rest := by
      unfold rowsColl colColl
      constructor <;> rintro ⟨r1, hr1, c, hc, hh⟩ <;> refine ⟨r1, hr1, c, hc, ?_⟩
      · have hne : r1 ≠ r := fun he => hrni (he ▸ hr1)
        rw [f1i, mem8_congr s1 s f1mem, hgp1 r1 c hne] at hh
        exact hh
      · have hne : r1 ≠ r := fun he => hrni (he ▸ hr1)
        rw [f1i, mem8_congr s1 s f1mem, hgp1 r1 c hne]
        exact hh
    have hhitr : ∀ ry cx, (rowsHit s1 x0 y0 rest ry cx ↔ rowsHit s x0 y0 rest ry cx) :=
      fun ry cx => rowsHit_congr s1 s f1i f1mem x0 y0 rest ry cx
    refine ⟨s2, hrunfull, hmem2.trans f1mem, hi2.trans f1i, hpc2.trans f1pc,
      hstk2.trans f1stk, hsp2.trans f1sp, hdel2.trans f1del, hsnd2.trans f1snd,
      hupd2.trans f1upd, hkb2.trans f1kb, ?_, ?_, ?_, ?_⟩
    · intro j hj
      rw [hvne2 j hj, hs1, drawCols_v_ne x0 y0 byte r (List.range 8) s j hj]
    · intro ry cx
      constructor
      · intro hhit
        rcases (hsplit ry cx).mp hhit with hhead | hrest
        · have hnorest : ¬ rowsHit s x0 y0 rest ry cx := by
            rintro ⟨r1, hr1, c1, hc1, hh1⟩
            obtain ⟨c0, hc0, hh0⟩ := hhead
            have hr1r : r1 = r := by
              have e0 := hh0.1
              have e1 := hh1.1
              omega
            exact hrni (hr1r ▸ hr1)
          rw [(hpix2 ry cx).2 (fun hh => hnorest ((hhitr ry cx).mp hh)), hs1]
          exact (drawCols_getPix x0 y0 byte r (List.range 8) ry cx s
            (List.nodup_range 8)).1 hhead
        · have hnohead : ¬ ∃ c ∈ List.range 8, colHit x0 y0 byte r c ry cx := by
            rintro ⟨c0, hc0, hh0⟩
            obtain ⟨r1, hr1, c1, hc1, hh1⟩ := hrest
            have hr1r : r1 = r := by
              have e0 := hh0.1
              have e1 := hh1.1
              omega
            exact hrni (hr1r ▸ hr1)
          rw [(hpix2 ry cx).1 ((hhitr ry cx).mpr hrest), hs1]
          rw [(drawCols_getPix x0 y0 byte r (List.range 8) ry cx s
            (List.nodup_range 8)).2 hnohead]
      · intro hno
        have hnohead : ¬ ∃ c ∈ List.range 8, colHit x0 y0 byte r c ry cx :=
          fun hh => hno ((hsplit ry cx).mpr (Or.inl hh))
        have hnorest : ¬ rowsHit s x0 y0 rest ry cx :=
          fun hh => hno ((hsplit ry cx).mpr (Or.inr hh))
        rw [(hpix2 ry cx).2 (fun hh => hnorest ((hhitr ry cx).mp hh)), hs1]
        exact (drawCols_getPix x0 y0 byte r (List.range 8) ry cx s
          (List.nodup_range 8)).2 hnohead
    · intro hcoll
      rcases hsplitC.mp hcoll with hhead | hrest
      · by_cases h2 : rowsColl s1 x0 y0 rest
        · exact hcoll2 h2
        · rw [hncoll2 h2, hs1]
          exact (drawCols_v15 x0 y0 byte r (List.range 8) s (List.nodup_range 8)).1 hhead
      · exact hcoll2 (hcollr.mpr hrest)
    · intro hno
      have h1 : ¬ ∃ c ∈ List.range 8, colColl s x0 y0 byte r c :=
        fun hh => hno (hsplitC.mpr (Or.inl hh))
      have h2 : ¬ rowsColl s x0 y0 rest := fun hh => hno (hsplitC.mpr (Or.inr hh))
      rw [hncoll2 (fun hh => h2 (hcollr.mp hh)), hs1]
      exact (drawCols_v15 x0 y0 byte r (List.range 8) s (List.nodup_range 8)).2 h1

/-- The `Dxyn` instruction in state `st` (coordinates `Vx mod 64`, `Vy mod 32`,
sprite at `I`, height `n`) draws a set sprite bit onto pixel `(cx, ry)`. -/
def dHit (st : Chip8) (x y : Fin 16) (n : Nat) (ry cx : Nat) : Prop :=
  rowsHit st (st.v x % 64) (st.v y % 32) (List.range n) ry cx

theorem rowsColl_iff_pix (s : Chip8) (x0 y0 : Nat) (rows : List Nat) :
    rowsColl s x0 y0 rows ↔
      ∃ ry cx : Nat, rowsHit s x0 y0 rows ry cx ∧ getPix s ry cx = true := by
  unfold rowsColl rowsHit colColl colHit
  constructor
  · rintro ⟨r, hr, c, hc, hy, hx, hbit, hpix⟩
    exact ⟨y0 + r, x0 + c, ⟨r, hr, c, hc, rfl, rfl, hbit, hy, hx⟩, hpix⟩
  · rintro ⟨ry, cx, ⟨r, hr, c, hc, hry, hcx, hbit, h32, h64⟩, hpix⟩
    subst hry
    subst hcx
    exact ⟨r, hr, c, hc, h32, h64, hbit, hpix⟩

theorem execute_display_spec (rnd : Nat) (st : Chip8) (x y : Fin 16) (n : Nat)
    (hin : st.i + n ≤ 4096) :
    ∃ st2, execute rnd st (.Display x y n) = some st2 ∧
      st2.memory = st.memory ∧ st2.i = st.i ∧ st2.program_counter = st.program_counter ∧
      st2.stack = st.stack ∧ st2.sp = st.sp ∧ st2.delay = st.delay ∧
      st2.sound = st.sound ∧ st2.keyboard = st.keyboard ∧ st2.update_display = true ∧
      (∀ j : Fin 16, j ≠ 15 → st2.v j = st.v j) ∧
      (∀ ry cx : Nat,
        (dHit st x y n ry cx → getPix st2 ry cx = !(getPix st ry cx)) ∧
        (¬ dHit st x y n ry cx → getPix st2 ry cx = getPix st ry cx)) ∧
      (st2.v 15 = 1 ↔ ∃ ry cx : Nat, dHit st x y n ry cx ∧ getPix st ry cx = true) := by
  set x0 := st.v x % 64 with hx0
  set y0 := st.v y % 32 with hy0
  set s0 : Chip8 := { st with v := updV st.v 15 0 } with hs0
  obtain ⟨s2, hrun, hmem, hi, hpc, hstk, hsp, hdel, hsnd, hupd, hkb,
    hvne, hpix, hcoll, hncoll⟩ :=
    drawRows_spec x0 y0 (List.range n) s0 (List.nodup_range n)
      (by
        intro r hr
        rw [List.mem_range] at hr
        show st.i + r < 4096
        omega)
  have hexec : execute rnd st (.Display x y n) = some { s2 with update_display := true } := by
    dsimp only [execute]
    rw [hrun]
  have hgp0 : ∀ ry cx : Nat, getPix s0 ry cx = getPix st ry cx := fun _ _ => rfl
  have hH : ∀ ry cx : Nat, rowsHit s0 x0 y0 (List.range n) ry cx ↔ dHit st x y n ry cx :=
    fun ry cx => rowsHit_congr s0 st rfl rfl x0 y0 (List.range n) ry cx
  refine ⟨{ s2 with update_display := true }, hexec, hmem, hi, hpc, hstk, hsp, hdel,
    hsnd, hkb, rfl, ?_, ?_, ?_⟩
  · intro j hj
    have h1 : s2.v j = s0.v j := hvne j hj
    have h2 : s0.v j = st.v j := updV_ne st.v 15 0 j hj
    exact h1.trans h2
  · intro ry cx
    constructor
    · intro hd
      exact ((hpix ry cx).1 ((hH ry cx).mpr hd)).trans (by rw [hgp0])
    · intro hd
      exact ((hpix ry cx).2 (fun hh => hd ((hH ry cx).mp hh))).trans (hgp0 ry cx)
  · constructor
    · intro h1
      by_cases hc : rowsColl s0 x0 y0 (List.range n)
      · obtain ⟨ry, cx, hh, hp⟩ := (rowsColl_iff_pix s0 x0 y0 (List.range n)).mp hc
        exact ⟨ry, cx, (hH ry cx).mp hh, (hgp0 ry cx) ▸ hp⟩
      · exfalso
        have h0 : s2.v 15 = 0 := (hncoll hc).trans (updV_self st.v 15 0)
        have h1x : s2.v 15 = 1 := h1
        omega
    · rintro ⟨ry, cx, hd, hp⟩
      exact hcoll ((rowsColl_iff_pix s0 x0 y0 (List.range n)).mpr
        ⟨ry, cx, (hH ry cx).mpr hd, by rw [hgp0]; exact hp⟩)

/-- C6 (amended): when neither coordinate register is `VF` (`x ≠ 0xF`,
`y ≠ 0xF` — drawing writes `VF`, so a `VF` coordinate changes between the two
draws) and the sprite reads stay in memory (`I + n ≤ 4096` — otherwise the
draw panics on an out-of-bounds read), executing the same `Dxyn` twice with no
other mutation restores the framebuffer exactly (XOR double-toggle identity),
after the second draw `VF = 1` iff some sprite bit overlaps a pixel left on by
the first draw, and pixels not targeted by a set sprite bit are never modified
by either draw. -/
theorem display_double_draw (rnd : Nat) (st : Chip8) (x y : Fin 16) (n : Nat)
    (hx : x ≠ 15) (hy : y ≠ 15) (hin : st.i + n ≤ 4096) :
    ∃ st1 st2, execute rnd st (.Display x y n) = some st1 ∧
      execute rnd st1 (.Display x y n) = some st2 ∧
      st2.display = st.display ∧
      (st2.v 15 = 1 ↔ ∃ ry cx : Nat, dHit st x y n ry cx ∧ getPix st1 ry cx = true) ∧
      (∀ ry cx : Nat, ¬ dHit st x y n ry cx →
        getPix st1 ry cx = getPix st ry cx ∧ getPix st2 ry cx = getPix st ry cx) := by
  obtain ⟨st1, hex1, hmem1, hi1, hpc1, hstk1, hsp1, hdel1, hsnd1, hkb1, hupd1,
    hvne1, hpix1, hvf1⟩ := execute_display_spec rnd st x y n hin
  have hdcongr : ∀ ry cx : Nat, dHit st1 x y n ry cx ↔ dHit st x y n ry cx := by
    intro ry cx
    unfold dHit
    rw [hvne1 x hx, hvne1 y hy]
    exact rowsHit_congr st1 st hi1 hmem1 _ _ _ ry cx
  obtain ⟨st2, hex2, hmem2, hi2, hpc2, hstk2, hsp2, hdel2, hsnd2, hkb2, hupd2,
    hvne2, hpix2, hvf2⟩ :=
    execute_display_spec rnd st1 x y n (by rw [hi1]; exact hin)
  refine ⟨st1, st2, hex1, hex2, ?_, ?_, ?_⟩
  · funext py px
    have h1 := hpix1 py.val px.val
    have h2 := hpix2 py.val px.val
    have e2 : getPix st2 py.val px.val = getPix st py.val px.val := by
      by_cases hd : dHit st x y n py.val px.val
      · rw [h2.1 ((hdcongr _ _).mpr hd), h1.1 hd, Bool.not_not]
      · rw [h2.2 (fun hh => hd ((hdcongr _ _).mp hh)), h1.2 hd]
    rw [getPix_eq st2 _ _ py.isLt px.isLt, getPix_eq st _ _ py.isLt px.isLt] at e2
    exact e2
  · constructor
    · intro h
      obtain ⟨ry, cx, hd, hp⟩ := hvf2.mp h
      exact ⟨ry, cx, (hdcongr ry cx).mp hd, hp⟩
    · rintro ⟨ry, cx, hd, hp⟩
      exact hvf2.mpr ⟨ry, cx, (hdcongr ry cx).mpr hd, hp⟩
  · intro ry cx hd
    have e1 : getPix st1 ry cx = getPix st ry cx := (hpix1 ry cx).2 hd
    have e2 : getPix st2 ry cx = getPix st1 ry cx :=
      (hpix2 ry cx).2 (fun hh => hd ((hdcongr ry cx).mp hh))
    exact ⟨e1, e2.trans e1⟩

/-- C6 counterexample: with `x = 0xF` the first draw's `VF` write changes the
draw coordinate, so the second identical `DF01` draws at a different column: a
one-bit sprite drawn from `VF = 5` leaves pixels `(5, 0)` and `(0, 0)` both on,
and the framebuffer is not restored (pixel `(0, 0)` was off before). -/
def c6CexMem : Fin 4096 → Nat := fun a => if a.val = 0x200 then 0x80 else 0

def c6CexSt : Chip8 :=
  { Chip8.new with i := 0x200, v := fun j => if j = 15 then 5 else 0, memory := c6CexMem }

theorem display_double_cex :
    ((execute 0 c6CexSt (.Display 15 0 1)).bind
      (fun s => execute 0 s (.Display 15 0 1))).map (fun s => getPix s 0 0) ≠
      some false := by
  decide

/-- Concrete input for the C6 theorem: the digit-0 glyph at `I = 0x50`, drawn
at `(V0, V1) = (0, 0)` with height 5. -/
def c6WitSt : Chip8 := { Chip8.new with i := 0x50 }

theorem display_double_draw_witness :
    (0 : Fin 16) ≠ 15 ∧ (1 : Fin 16) ≠ 15 ∧ c6WitSt.i + 5 ≤ 4096 ∧
    (∃ st1 st2, execute 0 c6WitSt (.Display 0 1 5) = some st1 ∧
      execute 0 st1 (.Display 0 1 5) = some st2 ∧
      st2.display = c6WitSt.display ∧
      (st2.v 15 = 1 ↔ ∃ ry cx : Nat, dHit c6WitSt 0 1 5 ry cx ∧ getPix st1 ry cx = true) ∧
      (∀ ry cx : Nat, ¬ dHit c6WitSt 0 1 5 ry cx →
        getPix st1 ry cx = getPix c6WitSt ry cx ∧ getPix st2 ry cx = getPix c6WitSt ry cx)) :=
  ⟨by decide, by decide, by decide,
    display_double_draw 0 c6WitSt 0 1 5 (by decide) (by decide) (by decide)⟩
